import Mathlib

/-!
A verification development for the distributed unstructured-mesh topology
manager (stk-mesh `BulkData` and the krino mesh helpers).  Each section embeds
the relevant C++ routines as executable Lean definitions and proves (or
refutes) the specified properties about them.
-/

set_option maxHeartbeats 1000000

namespace MeshVerify

/-! ### Shared-entity resolution during `modification_end`
(`BulkData::update_owner_global_key_and_sharing_proc` and the receive loop of
`BulkData::unpackEntityFromOtherProcAndUpdateInfoIfSharedLocally`). -/

/-- An `EntityKey` is a packed `(rank, id)` integer in stk; key comparisons in
the resolution code are integer comparisons of the packed value, so the model
uses a bare natural number. -/
abbrev EntityKeyV := Nat

/-- The fields of stk's `shared_entity_type` used by the key-resolution code:
the sorted node-key list of the candidate, its original (local) key, the
in-progress resolved (global) key, and the accumulated sharing processes. -/
structure SharedEntityType where
  nodes : List Nat
  localKey : EntityKeyV
  globalKey : EntityKeyV
  sharingProcs : List Nat
deriving Repr, DecidableEq

/-- A shared-entity candidate packet received from another process: the
sender's rank, the candidate's sorted node-key list, and the key the sender
proposes (its `global_key` at pack time, i.e. its local key). -/
structure SharedEntityProposal where
  procId : Nat
  nodes : List Nat
  globalKey : EntityKeyV
deriving Repr, DecidableEq

/-- `BulkData::update_owner_global_key_and_sharing_proc`: record the sender in
`sharing_procs`, and overwrite `global_key` with the sender's key exactly when
the sender's process rank is lower than this process's rank. -/
def update_owner_global_key_and_sharing_proc (parallelRank : Nat)
    (globalKeyOtherProc : EntityKeyV) (sharedEntityThisProc : SharedEntityType)
    (procId : Nat) : SharedEntityType :=
  { sharedEntityThisProc with
    sharingProcs := sharedEntityThisProc.sharingProcs ++ [procId]
    globalKey :=
      if procId < parallelRank then globalKeyOtherProc
      else sharedEntityThisProc.globalKey }

/-- The receive loop of `unpackEntityFromOtherProcAndUpdateInfoIfSharedLocally`
restricted to a single local candidate: each received proposal whose node-key
list matches the candidate's (the global deduplication rule, node mode) is
applied with `update_owner_global_key_and_sharing_proc`, in receive order. -/
def processReceivedProposals (parallelRank : Nat) (se : SharedEntityType)
    (props : List SharedEntityProposal) : SharedEntityType :=
  props.foldl
    (fun acc p =>
      if p.nodes = acc.nodes then
        update_owner_global_key_and_sharing_proc parallelRank p.globalKey acc p.procId
      else acc)
    se

/-- Does a received proposal match the candidate's node list and come from a
strictly lower-ranked process? -/
def matchesAndLower (parallelRank : Nat) (nodes : List Nat)
    (p : SharedEntityProposal) : Bool :=
  decide (p.nodes = nodes) && decide (p.procId < parallelRank)

/-- The key proposed by the last-processed matching lower-rank proposal, or
the default when no lower-ranked process proposed. -/
def last_lower_rank_key (parallelRank : Nat) (nodes : List Nat)
    (dflt : EntityKeyV) (props : List SharedEntityProposal) : EntityKeyV :=
  match (props.filter (matchesAndLower parallelRank nodes)).getLast? with
  | some p => p.globalKey
  | none => dflt

theorem last_lower_rank_key_cons (parallelRank : Nat) (nodes : List Nat)
    (dflt : EntityKeyV) (p : SharedEntityProposal)
    (ps : List SharedEntityProposal) :
    last_lower_rank_key parallelRank nodes dflt (p :: ps) =
      last_lower_rank_key parallelRank nodes
        (if matchesAndLower parallelRank nodes p then p.globalKey else dflt) ps := by
  unfold last_lower_rank_key
  by_cases h : matchesAndLower parallelRank nodes p
  · simp only [List.filter_cons, h, if_pos]
    cases hf : (ps.filter (matchesAndLower parallelRank nodes)) with
    | nil => simp
    | cons a l =>
      cases hg : (a :: l).getLast? with
      | none => simp at hg
      | some y => rw [List.getLast?_cons_cons, hg]
  · simp only [List.filter_cons, h]
    simp [h]

theorem processReceivedProposals_spec (parallelRank : Nat)
    (se : SharedEntityType) (props : List SharedEntityProposal) :
    (processReceivedProposals parallelRank se props).nodes = se.nodes ∧
    (processReceivedProposals parallelRank se props).localKey = se.localKey ∧
    (processReceivedProposals parallelRank se props).globalKey =
      last_lower_rank_key parallelRank se.nodes se.globalKey props ∧
    (processReceivedProposals parallelRank se props).sharingProcs =
      se.sharingProcs ++
        (props.filter (fun p => decide (p.nodes = se.nodes))).map (·.procId) := by
  induction props generalizing se with
  | nil => simp [processReceivedProposals, last_lower_rank_key]
  | cons p ps ih =>
    by_cases hm : p.nodes = se.nodes
    · have hstep : processReceivedProposals parallelRank se (p :: ps) =
          processReceivedProposals parallelRank
            (update_owner_global_key_and_sharing_proc parallelRank p.globalKey se p.procId) ps := by
        simp [processReceivedProposals, hm]
      rw [hstep]
      rcases ih (update_owner_global_key_and_sharing_proc parallelRank p.globalKey se p.procId)
        with ⟨h1, h2, h3, h4⟩
      refine ⟨?_, ?_, ?_, ?_⟩
      · rw [h1]; rfl
      · rw [h2]; rfl
      · rw [h3, last_lower_rank_key_cons]
        by_cases hl : p.procId < parallelRank
        · have : matchesAndLower parallelRank se.nodes p = true := by
            simp [matchesAndLower, hm, hl]
          simp only [this, if_pos]
          have : (update_owner_global_key_and_sharing_proc parallelRank
              p.globalKey se p.procId).globalKey = p.globalKey := by
            simp [update_owner_global_key_and_sharing_proc, hl]
          rw [show (update_owner_global_key_and_sharing_proc parallelRank
              p.globalKey se p.procId).nodes = se.nodes from rfl, this]
        · have : matchesAndLower parallelRank se.nodes p = false := by
            simp [matchesAndLower, hl]
          simp only [this, if_neg Bool.false_ne_true]
          have : (update_owner_global_key_and_sharing_proc parallelRank
              p.globalKey se p.procId).globalKey = se.globalKey := by
            simp [update_owner_global_key_and_sharing_proc, hl]
          rw [show (update_owner_global_key_and_sharing_proc parallelRank
              p.globalKey se p.procId).nodes = se.nodes from rfl, this]
      · rw [h4]
        simp only [update_owner_global_key_and_sharing_proc, List.filter_cons, hm]
        simp
    · have hstep : processReceivedProposals parallelRank se (p :: ps) =
          processReceivedProposals parallelRank se ps := by
        simp [processReceivedProposals, hm]
      rw [hstep]
      rcases ih se with ⟨h1, h2, h3, h4⟩
      refine ⟨h1, h2, ?_, ?_⟩
      · rw [h3, last_lower_rank_key_cons]
        have : matchesAndLower parallelRank se.nodes p = false := by
          simp [matchesAndLower, hm]
        simp [this]
      · rw [h4]
        simp [List.filter_cons, hm]

/-- C1 (counterexample): on process 1, a matching candidate with local key 5
receiving a proposal with key 100 from process 0 resolves to key 100 — the
lower-ranked process's key — not to the minimum (5) of the proposed keys; and
with two lower-ranked proposers the result depends on the receive order. -/
theorem resolved_key_not_min_counterexample :
    (processReceivedProposals 1 ⟨[1, 2], 5, 5, []⟩ [⟨0, [1, 2], 100⟩]).globalKey = 100 ∧
    min 5 100 = 5 ∧ (100 : Nat) ≠ 5 ∧
    (processReceivedProposals 2 ⟨[1, 2], 9, 9, []⟩
        [⟨0, [1, 2], 7⟩, ⟨1, [1, 2], 8⟩]).globalKey = 8 ∧
    (processReceivedProposals 2 ⟨[1, 2], 9, 9, []⟩
        [⟨1, [1, 2], 8⟩, ⟨0, [1, 2], 7⟩]).globalKey = 7 := by
  decide

/-! ### krino child-node id resolution (`ActiveChildNodeRequest`). -/

/-- One entry of `m_id_proc_pairs_from_all_procs`: the pair is built as
`std::make_pair(proc_id, id)`, so the process rank is the FIRST component and
the suggested node id the second. -/
abbrev IdProcPair := Nat × Nat

/-- The lexicographic `operator<=` on `std::pair<int, EntityId>` used (via
`operator<`) by `std::sort` in `ActiveChildNodeRequest::sort_id_proc_pairs`:
process rank first, id second. -/
def idProcPairLe (a b : IdProcPair) : Bool :=
  decide (a.1 < b.1) || (decide (a.1 = b.1) && decide (a.2 ≤ b.2))

/-- Sorted insertion for `sort_id_proc_pairs`. -/
def insertIdProcPair (a : IdProcPair) : List IdProcPair → List IdProcPair
  | [] => [a]
  | b :: l => if idProcPairLe a b then a :: b :: l else b :: insertIdProcPair a l

/-- `ActiveChildNodeRequest::sort_id_proc_pairs`: `std::sort` of the
`(proc, id)` pairs under the lexicographic pair ordering (modelled by an
insertion sort, which produces the same sorted permutation). -/
def sort_id_proc_pairs : List IdProcPair → List IdProcPair
  | [] => []
  | a :: l => insertIdProcPair a (sort_id_proc_pairs l)

/-- `ActiveChildNodeRequest::get_id_for_child`: the `.second` (the id) of the
first pair after sorting.  A request always holds at least the calling
process's own pair; the default covers the empty case only formally. -/
def get_id_for_child (pairs : List IdProcPair) : Nat :=
  ((sort_id_proc_pairs pairs).headD (0, 0)).2

theorem mem_insertIdProcPair (a x : IdProcPair) (l : List IdProcPair) :
    x ∈ insertIdProcPair a l ↔ x = a ∨ x ∈ l := by
  induction l with
  | nil => simp [insertIdProcPair]
  | cons b t ih =>
    by_cases h : idProcPairLe a b
    · simp [insertIdProcPair, h]
    · simp [insertIdProcPair, h, ih]
      tauto

theorem mem_sort_id_proc_pairs (x : IdProcPair) (l : List IdProcPair) :
    x ∈ sort_id_proc_pairs l ↔ x ∈ l := by
  induction l with
  | nil => simp [sort_id_proc_pairs]
  | cons a t ih => simp [sort_id_proc_pairs, mem_insertIdProcPair, ih]

theorem idProcPairLe_total (a b : IdProcPair) :
    idProcPairLe a b = true ∨ idProcPairLe b a = true := by
  unfold idProcPairLe
  rcases Nat.lt_trichotomy a.1 b.1 with h | h | h
  · left; simp [h]
  · rcases Nat.le_total a.2 b.2 with h2 | h2
    · left; simp [h, h2]
    · right; simp [h.symm, h2]
  · right; simp [h]

theorem idProcPairLe_trans {a b c : IdProcPair} (hab : idProcPairLe a b = true)
    (hbc : idProcPairLe b c = true) : idProcPairLe a c = true := by
  unfold idProcPairLe at *
  simp only [Bool.or_eq_true, Bool.and_eq_true, decide_eq_true_eq] at *
  rcases hab with h1 | ⟨h1, h1'⟩ <;> rcases hbc with h2 | ⟨h2, h2'⟩
  · exact Or.inl (Nat.lt_trans h1 h2)
  · exact Or.inl (h2 ▸ h1)
  · exact Or.inl (h1 ▸ h2)
  · exact Or.inr ⟨h1.trans h2, Nat.le_trans h1' h2'⟩

/-- The head of the insertion sort is a lexicographic lower bound of
everything in the list. -/
theorem sort_id_proc_pairs_head_min (l : List IdProcPair) (x : IdProcPair)
    (hx : x ∈ sort_id_proc_pairs l) :
    ∀ d, idProcPairLe ((sort_id_proc_pairs l).headD d) x = true ∨
      (sort_id_proc_pairs l).headD d = x := by
  induction l with
  | nil => simp [sort_id_proc_pairs] at hx
  | cons a t ih =>
    intro d
    simp only [sort_id_proc_pairs] at hx ⊢
    cases hs : sort_id_proc_pairs t with
    | nil =>
      rw [hs] at hx
      simp [insertIdProcPair] at hx
      subst hx
      simp [insertIdProcPair]
    | cons b l' =>
      rw [hs] at hx
      rw [mem_insertIdProcPair] at hx
      by_cases hab : idProcPairLe a b
      · simp only [insertIdProcPair, hab, if_pos, List.headD_cons]
        rcases hx with rfl | hx
        · right; rfl
        · rcases ih (by rw [hs]; exact hx) d with h | h
          · rw [hs] at h; simp only [List.headD_cons] at h
            exact Or.inl (idProcPairLe_trans hab h)
          · rw [hs] at h; simp only [List.headD_cons] at h
            subst h; exact Or.inl hab
      · simp only [insertIdProcPair, hab, if_neg, List.headD_cons]
        rcases hx with rfl | hx
        · left
          rcases idProcPairLe_total x b with h | h
          · exact absurd h (by simpa using hab)
          · exact h
        · rcases ih (by rw [hs]; exact hx) d with h | h
          · rw [hs] at h; simp only [List.headD_cons] at h; exact Or.inl h
          · rw [hs] at h; simp only [List.headD_cons] at h
            subst h; right; rfl

theorem headD_mem_sort (l : List IdProcPair) (hne : l ≠ []) (d : IdProcPair) :
    (sort_id_proc_pairs l).headD d ∈ l := by
  have hs : sort_id_proc_pairs l ≠ [] := by
    cases l with
    | nil => exact absurd rfl hne
    | cons a t =>
      simp only [sort_id_proc_pairs]
      cases h : sort_id_proc_pairs t with
      | nil => simp [insertIdProcPair]
      | cons b l' =>
        by_cases hab : idProcPairLe a b <;> simp [insertIdProcPair, hab]
  rw [← mem_sort_id_proc_pairs]
  cases h : sort_id_proc_pairs l with
  | nil => exact absurd h hs
  | cons b l' => simp

/-- C2 (amended): the pair chosen by `get_id_for_child` is a proposal that is
lexicographically minimal in `(proc, id)` order: its process rank is strictly
lowest, or ties on process rank are broken by lowest id.  The id value is NOT
the primary criterion. -/
theorem get_id_for_child_lowest_proc (pairs : List IdProcPair)
    (hne : pairs ≠ []) :
    (sort_id_proc_pairs pairs).headD (0, 0) ∈ pairs ∧
    get_id_for_child pairs = ((sort_id_proc_pairs pairs).headD (0, 0)).2 ∧
    ∀ x ∈ pairs,
      ((sort_id_proc_pairs pairs).headD (0, 0)).1 < x.1 ∨
      (((sort_id_proc_pairs pairs).headD (0, 0)).1 = x.1 ∧
        ((sort_id_proc_pairs pairs).headD (0, 0)).2 ≤ x.2) := by
  refine ⟨headD_mem_sort pairs hne (0, 0), rfl, ?_⟩
  intro x hx
  rcases sort_id_proc_pairs_head_min pairs x
      ((mem_sort_id_proc_pairs x pairs).mpr hx) (0, 0) with h | h
  · unfold idProcPairLe at h
    simp only [Bool.or_eq_true, Bool.and_eq_true, decide_eq_true_eq] at h
    exact h
  · rw [h]
    right; exact ⟨rfl, le_refl _⟩

/-- Witness for `get_id_for_child_lowest_proc` at a concrete input. -/
theorem get_id_for_child_lowest_proc_witness :
    (([(0, 50), (1, 10)] : List IdProcPair) ≠ []) ∧
    ((sort_id_proc_pairs [(0, 50), (1, 10)]).headD (0, 0) ∈
        ([(0, 50), (1, 10)] : List IdProcPair) ∧
      get_id_for_child [(0, 50), (1, 10)] =
        ((sort_id_proc_pairs [(0, 50), (1, 10)]).headD (0, 0)).2 ∧
      ∀ x ∈ ([(0, 50), (1, 10)] : List IdProcPair),
        ((sort_id_proc_pairs [(0, 50), (1, 10)]).headD (0, 0)).1 < x.1 ∨
        (((sort_id_proc_pairs [(0, 50), (1, 10)]).headD (0, 0)).1 = x.1 ∧
          ((sort_id_proc_pairs [(0, 50), (1, 10)]).headD (0, 0)).2 ≤ x.2)) :=
  ⟨by decide, get_id_for_child_lowest_proc [(0, 50), (1, 10)] (by decide)⟩

/-- C2 (counterexample): with proposals `(proc 0, id 50)` and `(proc 1, id 10)`
the code chooses id 50 (the lowest-ranked process's id), not the lowest id 10,
so "lowest id primary, lowest rank secondary" is false as stated. -/
theorem get_id_for_child_not_lowest_id :
    get_id_for_child [(0, 50), (1, 10)] = 50 ∧
    ([(0, 50), (1, 10)] : List IdProcPair).foldr (fun p m => min p.2 m) 50 = 10 ∧
    get_id_for_child [(0, 50), (1, 10)] ≠ 10 := by
  decide

/-! ### `BulkData::determine_new_owner` -/

/-- `BulkData::determine_new_owner`.  `new_owner` is declared `int` but is
initialized from `~0u` when the entity is no longer valid; on two's-complement
targets that conversion stores -1.  All comparisons in the loop are then
signed `int` comparisons. -/
def determine_new_owner (parallelRank parallelSize : Int) (entityIsValid : Bool)
    (sharedProcs : List Int) : Int :=
  let init : Int := if entityIsValid then parallelRank else -1
  sharedProcs.foldl
    (fun newOwner proc =>
      if proc < parallelSize ∧ (proc < newOwner ∨ parallelSize ≤ newOwner)
      then proc
      else newOwner)
    init

/-- C6: for a destroyed (invalid) entity, `new_owner` starts at -1, so the
loop guard `proc < new_owner || parallel_size <= new_owner` is never true and
the function returns -1 instead of the lowest-rank sharing process (2 here),
contradicting its own comment.  For a still-valid entity the lowest-of-shared
rule does hold (last two conjuncts). -/
theorem determine_new_owner_invalid_entity_bug :
    determine_new_owner 0 4 false [2] = -1 ∧
    determine_new_owner 0 4 false [2] ≠ 2 ∧
    determine_new_owner 0 4 true [2] = 0 ∧
    determine_new_owner 3 4 true [2, 1] = 1 := by
  decide

/-! ### Parallel-consistent error raising in
`BulkData::move_entities_to_proper_part_ownership` -/

/-- The per-entity data read by the created-but-not-in-owned-closure check:
`state(entity) == Created` and `owned_closure(entity)`. -/
structure SharedModEntity where
  created : Bool
  ownedClosure : Bool
deriving Repr, DecidableEq

/-- The error-flag accumulation of the loop in
`move_entities_to_proper_part_ownership`: `error_flag` becomes 1 when some
entity was created but is not captured by the owned closure
(`isEntityGhost = !owned_closure(entity) && state(entity)==Created`). -/
def local_error_flag (sharedModified : List SharedModEntity) : Nat :=
  sharedModified.foldl
    (fun errorFlag e => if !e.ownedClosure && e.created then 1 else errorFlag) 0

/-- `all_reduce(parallel(), ReduceMax<1>(&error_flag))`: the collective leaves
every process holding the maximum of all processes' flags. -/
def all_reduce_max (flags : List Nat) : Nat := flags.foldl max 0

/-- Whether process `p` throws at `ThrowErrorMsgIf(error_flag, ...)`, with
`error_flag` replaced on every process by the reduced maximum. -/
def throws_after_reduce (perProc : List (List SharedModEntity)) (_p : Nat) : Bool :=
  all_reduce_max (perProc.map local_error_flag) != 0

theorem local_error_flag_foldl (l : List SharedModEntity) (acc : Nat) :
    l.foldl (fun errorFlag e => if !e.ownedClosure && e.created then 1 else errorFlag) acc =
      if l.any (fun e => !e.ownedClosure && e.created) then 1 else acc := by
  induction l generalizing acc with
  | nil => simp
  | cons e t ih =>
    simp only [List.foldl_cons, List.any_cons]
    rw [ih]
    by_cases h : (!e.ownedClosure && e.created) = true
    · simp [h]
    · simp only [Bool.not_eq_true] at h
      simp [h]

theorem local_error_flag_eq_one_iff (l : List SharedModEntity) :
    local_error_flag l = 1 ↔
      ∃ e ∈ l, e.created = true ∧ e.ownedClosure = false := by
  unfold local_error_flag
  rw [local_error_flag_foldl]
  by_cases h : l.any (fun e => !e.ownedClosure && e.created) = true
  · rw [if_pos h]
    simp only [List.any_eq_true, Bool.and_eq_true, Bool.not_eq_true'] at h
    rcases h with ⟨e, he, h1, h2⟩
    exact iff_of_true rfl ⟨e, he, h2, h1⟩
  · rw [if_neg h]
    constructor
    · intro h0
      exact absurd h0 (by omega)
    · rintro ⟨e, he, h1, h2⟩
      exfalso
      apply h
      simp only [List.any_eq_true, Bool.and_eq_true, Bool.not_eq_true']
      exact ⟨e, he, h2, h1⟩

theorem all_reduce_max_eq_zero_iff (flags : List Nat) :
    all_reduce_max flags = 0 ↔ ∀ f ∈ flags, f = 0 := by
  unfold all_reduce_max
  suffices h : ∀ (l : List Nat) (a : Nat), l.foldl max a = 0 ↔ a = 0 ∧ ∀ f ∈ l, f = 0 by
    rw [h flags 0]; simp
  intro l
  induction l with
  | nil => simp
  | cons f t ih =>
    intro a
    simp only [List.foldl_cons, ih, Nat.max_eq_zero_iff, List.mem_cons]
    constructor
    · rintro ⟨⟨ha, hf⟩, ht⟩
      exact ⟨ha, fun g hg => hg.elim (fun h => h ▸ hf) (ht g)⟩
    · rintro ⟨ha, hall⟩
      exact ⟨⟨ha, hall f (Or.inl rfl)⟩, fun g hg => hall g (Or.inr hg)⟩

/-- C9: the error in `move_entities_to_proper_part_ownership` is raised
all-or-nothing: after the `ReduceMax` collective on the error flags, every
process throws exactly when some process detected a created entity outside
the owned closure, so no process throws alone and none continues while
another throws. -/
theorem move_entities_error_all_or_nothing
    (perProc : List (List SharedModEntity)) (p q : Nat) :
    throws_after_reduce perProc p = throws_after_reduce perProc q ∧
    (throws_after_reduce perProc p = true ↔
      ∃ l ∈ perProc, ∃ e ∈ l, e.created = true ∧ e.ownedClosure = false) := by
  refine ⟨rfl, ?_⟩
  unfold throws_after_reduce
  rw [bne_iff_ne]
  constructor
  · intro h
    have := (not_iff_not.mpr (all_reduce_max_eq_zero_iff (perProc.map local_error_flag))).mp h
    push_neg at this
    rcases this with ⟨f, hf, hfne⟩
    rcases List.mem_map.mp hf with ⟨l, hl, rfl⟩
    have h01 : local_error_flag l = 1 := by
      unfold local_error_flag at hfne ⊢
      rw [local_error_flag_foldl] at hfne ⊢
      by_cases hany : l.any (fun e => !e.ownedClosure && e.created) = true
      · rw [if_pos hany]
      · rw [if_neg hany] at hfne
        exact absurd rfl hfne
    exact ⟨l, hl, (local_error_flag_eq_one_iff l).mp h01⟩
  · rintro ⟨l, hl, he⟩
    intro h0
    have := (all_reduce_max_eq_zero_iff (perProc.map local_error_flag)).mp h0
      (local_error_flag l) (List.mem_map.mpr ⟨l, hl, rfl⟩)
    rw [(local_error_flag_eq_one_iff l).mpr he] at this
    exact absurd this one_ne_zero

/-! ### rank/id validation (`BulkData::require_good_rank_and_id`) and entity
declaration (`BulkData::internal_declare_entity`) -/

/-- `stk::topology::FACE_RANK`. -/
def FACE_RANK : Nat := 2

/-- `EntityKey::MAX_ID`: the id field of the packed 64-bit key (8-bit rank,
56-bit id). -/
def MAX_ID : Nat := 2 ^ 56 - 1

/-- `EntityKey::is_valid_id`: positive and within the packed id field. -/
def is_valid_id (entId : Nat) : Bool := decide (0 < entId) && decide (entId ≤ MAX_ID)

/-- `BulkData::require_good_rank_and_id`: the rank must be below the mesh's
entity-rank count AND must not be `FACE_RANK` when the spatial dimension is 2;
the rank check is reported (as "Bad key rank") before the id check. -/
def require_good_rank_and_id (rankCount spatialDim entRank entId : Nat) :
    Except String Unit :=
  let okId := is_valid_id entId
  let okRank := decide (entRank < rankCount) &&
    !(decide (entRank = FACE_RANK) && decide (spatialDim = 2))
  if !okRank then .error "Bad key rank"
  else if !okId then .error "Bad id"
  else .ok ()

/-- One locally known entity of the repository: owner rank and part-ordinal
list. -/
structure EntityRec where
  owner : Nat
  parts : List Nat
deriving Repr, DecidableEq

/-- Part ordinal of `locally_owned_part` in the model's meta data (0 is the
universal part). -/
def locally_owned_ord : Nat := 1

/-- The slice of `BulkData` state read and written by
`internal_declare_entity`: parallel size and rank, modification state, the
meta data consulted by `require_good_rank_and_id`, and the key-to-entity
repository. -/
structure DeclMesh where
  psize : Nat
  prank : Nat
  modifiable : Bool
  spatialDim : Nat
  rankCount : Nat
  entities : List ((Nat × Nat) × EntityRec)
deriving Repr, DecidableEq

/-- Key lookup in the entity repository. -/
def lookupEntity (m : DeclMesh) (key : Nat × Nat) : Option EntityRec :=
  (m.entities.find? (fun e => decide (e.1 = key))).map (·.2)

/-- Add one part ordinal if absent. -/
def addPartOrd (parts : List Nat) (p : Nat) : List Nat :=
  if p ∈ parts then parts else parts ++ [p]

/-- `internal_verify_and_change_entity_parts` restricted to the added-parts
union (removals are empty on this path). -/
def addPartsList (parts : List Nat) (add : List Nat) : List Nat :=
  add.foldl addPartOrd parts

/-- Replace the record stored under `key`. -/
def setEntity (m : DeclMesh) (key : Nat × Nat) (er : EntityRec) : DeclMesh :=
  { m with entities := m.entities.map (fun e => if e.1 = key then (key, er) else e) }

/-- Append a fresh record under `key`. -/
def addEntity (m : DeclMesh) (key : Nat × Nat) (er : EntityRec) : DeclMesh :=
  { m with entities := m.entities ++ [(key, er)] }

/-- `BulkData::internal_declare_entity`: requires the modifiable state and a
good rank/id; reuses an existing entity for the key — in which case
`require_entity_owner` demands (when more than one process) that the caller
own it — or creates a new one owned by the caller; in both cases the
requested parts plus `locally_owned_part` are added.  (Local-offset
allocation, notification and mod-summary bookkeeping are elided.) -/
def internal_declare_entity (m : DeclMesh) (entRank entId : Nat)
    (parts : List Nat) : Except String ((Nat × Nat) × DeclMesh) :=
  if !m.modifiable then .error "NOT in the ok-to-modify state"
  else
    match require_good_rank_and_id m.rankCount m.spatialDim entRank entId with
    | .error e => .error e
    | .ok _ =>
      let key := (entRank, entId)
      match lookupEntity m key with
      | some er =>
        if 1 < m.psize ∧ er.owner ≠ m.prank then .error "owner mismatch"
        else .ok (key, setEntity m key
          { er with parts := addPartsList er.parts (parts ++ [locally_owned_ord]) })
      | none =>
        .ok (key, addEntity m key
          { owner := m.prank, parts := addPartsList [] (parts ++ [locally_owned_ord]) })

theorem mem_addPartOrd (parts : List Nat) (p q : Nat) :
    q ∈ addPartOrd parts p ↔ q ∈ parts ∨ q = p := by
  unfold addPartOrd
  by_cases h : p ∈ parts
  · simp only [h, if_pos]
    constructor
    · exact Or.inl
    · rintro (hq | rfl)
      · exact hq
      · exact h
  · simp [h]

theorem mem_addPartsList (parts add : List Nat) (q : Nat) :
    q ∈ addPartsList parts add ↔ q ∈ parts ∨ q ∈ add := by
  induction add generalizing parts with
  | nil => simp [addPartsList]
  | cons p t ih =>
    simp only [addPartsList, List.foldl_cons] at ih ⊢
    rw [ih, mem_addPartOrd]
    simp only [List.mem_cons]
    tauto

theorem find?_append_of_none {α : Type} (p : α → Bool) (l1 l2 : List α)
    (h : l1.find? p = none) : (l1 ++ l2).find? p = l2.find? p := by
  induction l1 with
  | nil => simp
  | cons a t ih =>
    by_cases hp : p a = true
    · rw [List.find?_cons_of_pos _ hp] at h
      exact absurd h (by simp)
    · rw [List.find?_cons_of_neg _ hp] at h
      rw [List.cons_append, List.find?_cons_of_neg _ hp]
      exact ih h

theorem lookupEntity_addEntity_self (m : DeclMesh) (key : Nat × Nat)
    (er : EntityRec) (hnone : lookupEntity m key = none) :
    lookupEntity (addEntity m key er) key = some er := by
  unfold lookupEntity at hnone
  simp only [Option.map_eq_none'] at hnone
  show Option.map (fun x => x.2)
    ((m.entities ++ [(key, er)]).find? (fun e => decide (e.1 = key))) = some er
  rw [find?_append_of_none _ _ _ hnone]
  simp

/-- C7: a first declaration of an `EntityKey` (key not present) yields an
entity owned by the calling process and a member of `locally_owned_part`; an
existing key is reused and, on a multi-process mesh, a fatal error is raised
unless the caller is the current owner. -/
theorem declare_entity_first_declaration (m : DeclMesh) (entRank entId : Nat)
    (parts : List Nat) (hmod : m.modifiable = true)
    (hgood : require_good_rank_and_id m.rankCount m.spatialDim entRank entId = .ok ()) :
    (lookupEntity m (entRank, entId) = none →
      ∃ m', internal_declare_entity m entRank entId parts =
          .ok ((entRank, entId), m') ∧
        ∃ er, lookupEntity m' (entRank, entId) = some er ∧
          er.owner = m.prank ∧ locally_owned_ord ∈ er.parts) ∧
    (∀ er0, lookupEntity m (entRank, entId) = some er0 →
      (1 < m.psize ∧ er0.owner ≠ m.prank →
        internal_declare_entity m entRank entId parts = .error "owner mismatch") ∧
      (er0.owner = m.prank →
        ∃ m', internal_declare_entity m entRank entId parts =
          .ok ((entRank, entId), m'))) := by
  constructor
  · intro hnone
    refine ⟨addEntity m (entRank, entId)
      { owner := m.prank, parts := addPartsList [] (parts ++ [locally_owned_ord]) }, ?_, ?_⟩
    · unfold internal_declare_entity
      simp only [hmod, Bool.not_true, Bool.false_eq_true, if_false, hgood, hnone]
    · refine ⟨_, lookupEntity_addEntity_self m (entRank, entId) _ hnone, rfl, ?_⟩
      rw [mem_addPartsList]
      simp
  · intro er0 hsome
    constructor
    · intro hbad
      unfold internal_declare_entity
      simp only [hmod, Bool.not_true, Bool.false_eq_true, if_false, hgood, hsome]
      simp [hbad]
    · intro hown
      unfold internal_declare_entity
      simp only [hmod, Bool.not_true, Bool.false_eq_true, if_false, hgood, hsome]
      have : ¬(1 < m.psize ∧ er0.owner ≠ m.prank) := by
        rintro ⟨-, hne⟩; exact hne hown
      simp only [this, if_neg, not_false_iff]
      exact ⟨_, rfl⟩

/-- Witness for `declare_entity_first_declaration` at a concrete mesh. -/
theorem declare_entity_first_declaration_witness :
    ((DeclMesh.mk 2 0 true 3 4 []).modifiable = true) ∧
    (require_good_rank_and_id 4 3 0 7 = .ok ()) ∧
    ((lookupEntity (DeclMesh.mk 2 0 true 3 4 []) (0, 7) = none →
      ∃ m', internal_declare_entity (DeclMesh.mk 2 0 true 3 4 []) 0 7 [] =
          .ok ((0, 7), m') ∧
        ∃ er, lookupEntity m' (0, 7) = some er ∧
          er.owner = (DeclMesh.mk 2 0 true 3 4 []).prank ∧
          locally_owned_ord ∈ er.parts) ∧
    (∀ er0, lookupEntity (DeclMesh.mk 2 0 true 3 4 []) (0, 7) = some er0 →
      (1 < (DeclMesh.mk 2 0 true 3 4 []).psize ∧ er0.owner ≠ 0 →
        internal_declare_entity (DeclMesh.mk 2 0 true 3 4 []) 0 7 [] =
          .error "owner mismatch") ∧
      (er0.owner = 0 →
        ∃ m', internal_declare_entity (DeclMesh.mk 2 0 true 3 4 []) 0 7 [] =
          .ok ((0, 7), m')))) :=
  ⟨rfl, rfl,
    declare_entity_first_declaration (DeclMesh.mk 2 0 true 3 4 []) 0 7 [] rfl rfl⟩

/-- C10: on a spatial-dimension-2 mesh, validating `FACE_RANK` raises the
fatal "Bad key rank" error even when `FACE_RANK` is below the entity-rank
count, and `declare_entity` of a face therefore fails; any other in-range
rank with a valid id passes the check. -/
theorem face_rank_rejected_in_2d :
    (∀ rankCount entId, FACE_RANK < rankCount →
      require_good_rank_and_id rankCount 2 FACE_RANK entId = .error "Bad key rank") ∧
    (∀ rankCount spatialDim entRank entId, entRank < rankCount →
      (entRank ≠ FACE_RANK ∨ spatialDim ≠ 2) → is_valid_id entId = true →
      require_good_rank_and_id rankCount spatialDim entRank entId = .ok ()) ∧
    (∀ (m : DeclMesh) entId parts, m.spatialDim = 2 → m.modifiable = true →
      internal_declare_entity m FACE_RANK entId parts = .error "Bad key rank") := by
  refine ⟨?_, ?_, ?_⟩
  · intro rankCount entId _
    unfold require_good_rank_and_id
    simp
  · intro rankCount spatialDim entRank entId hlt hne hid
    unfold require_good_rank_and_id
    simp [hid]
    exact ⟨hlt, fun h1 => hne.resolve_left (not_not_intro h1)⟩
  · intro m entId parts hdim hmod
    unfold internal_declare_entity
    simp only [hmod, Bool.not_true, Bool.false_eq_true, if_false]
    have : require_good_rank_and_id m.rankCount m.spatialDim FACE_RANK entId =
        .error "Bad key rank" := by
      unfold require_good_rank_and_id
      simp [hdim]
    rw [this]

/-- Witness for `face_rank_rejected_in_2d` at concrete inputs. -/
theorem face_rank_rejected_in_2d_witness :
    (require_good_rank_and_id 4 2 FACE_RANK 7 = .error "Bad key rank") ∧
    (require_good_rank_and_id 4 2 3 7 = .ok ()) ∧
    (internal_declare_entity (DeclMesh.mk 1 0 true 2 4 []) FACE_RANK 7 [] =
      .error "Bad key rank") :=
  ⟨face_rank_rejected_in_2d.1 4 7 (by decide),
   face_rank_rejected_in_2d.2.1 4 2 3 7 (by decide) (Or.inl (by decide)) (by decide),
   face_rank_rejected_in_2d.2.2 (DeclMesh.mk 1 0 true 2 4 []) 7 [] rfl rfl⟩


/-! ### Connectivity graph: relation declaration/destruction and entity
destruction (`BulkData::internal_declare_relation`,
`BulkData::internal_destroy_relation`, `BulkData::internal_destroy_entity`) -/

/-- The connectivity slice of `BulkData` state: the entity-rank count, a fixed
rank per entity, the set of valid (non-destroyed) entities, the per-entity
per-target-rank connectivity lists (the cell `(e, r)` holds `e`'s list of
`(target entity, ordinal)` entries at target rank `r`, mirroring `Bucket`
connectivity), and the modification-cycle flag. -/
structure MeshState where
  rankCount : Nat
  rankOf : Nat → Nat
  valid : List Nat
  conn : Nat × Nat → List (Nat × Nat)
  modifiable : Bool

/-- `Bucket::declare_relation` on `eFrom`'s bucket: record `(eTo, ordinal)` in
`eFrom`'s list at `eTo`'s rank unless that exact entry is already present;
returns whether the bucket was modified (`is_new_relation`). -/
def bucket_declare_relation (s : MeshState) (eFrom eTo ordinal : Nat) :
    Bool × MeshState :=
  if (eTo, ordinal) ∈ s.conn (eFrom, s.rankOf eTo) then (false, s)
  else
    (true, { s with conn := (Function.update s.conn (eFrom, s.rankOf eTo)
      (s.conn (eFrom, s.rankOf eTo) ++ [(eTo, ordinal)])) })

/-- `Bucket::destroy_relation` on `eFrom`'s bucket: remove the
`(eTo, ordinal)` entry from `eFrom`'s list at `eTo`'s rank; returns whether
an entry was removed (`caused_change`). -/
def bucket_destroy_relation (s : MeshState) (eFrom eTo ordinal : Nat) :
    Bool × MeshState :=
  if (eTo, ordinal) ∈ s.conn (eFrom, s.rankOf eTo) then
    (true, { s with conn := (Function.update s.conn (eFrom, s.rankOf eTo)
      ((s.conn (eFrom, s.rankOf eTo)).filter (fun x => x ≠ (eTo, ordinal)))) })
  else (false, s)

/-- Modelled from the spec: `impl::require_valid_relation` (its definition is
not under src/) — declaring or destroying a relation requires both entities
valid and the `from` side of strictly higher rank than the `to` side; a
same-rank (or inverted) pair is a fatal error. -/
def require_valid_relation (s : MeshState) (eFrom eTo : Nat) :
    Except String Unit :=
  if eFrom ∈ s.valid ∧ eTo ∈ s.valid ∧ s.rankOf eTo < s.rankOf eFrom then .ok ()
  else .error "require_valid_relation"

/-- `BulkData::internal_declare_relation` (the relation-graph effect; part
induction and modified-state marking, which do not feed back into
connectivity, are elided): declare the forward entry and, exactly when it is
new, the reciprocal backward entry with the same ordinal. -/
def internal_declare_relation (s : MeshState) (eFrom eTo ordinal : Nat) :
    Except String MeshState :=
  if !s.modifiable then .error "NOT in the ok-to-modify state"
  else
    match require_valid_relation s eFrom eTo with
    | .error e => .error e
    | .ok _ =>
      if (bucket_declare_relation s eFrom eTo ordinal).1 then
        .ok (bucket_declare_relation
          (bucket_declare_relation s eFrom eTo ordinal).2 eTo eFrom ordinal).2
      else .ok (bucket_declare_relation s eFrom eTo ordinal).2

/-- `BulkData::internal_destroy_relation` (part-removal bookkeeping elided):
destroy the forward entry; exactly when that changed something, destroy the
reciprocal backward entry; return `caused_change_fwd`. -/
def internal_destroy_relation (s : MeshState) (eFrom eTo ordinal : Nat) :
    Except String (Bool × MeshState) :=
  if !s.modifiable then .error "NOT in the ok-to-modify state"
  else
    match require_valid_relation s eFrom eTo with
    | .error e => .error e
    | .ok _ =>
      if (bucket_destroy_relation s eFrom eTo ordinal).1 then
        .ok (true, (bucket_destroy_relation
          (bucket_destroy_relation s eFrom eTo ordinal).2 eTo eFrom ordinal).2)
      else .ok (false, (bucket_destroy_relation s eFrom eTo ordinal).2)

/-- The unchecked core of `internal_destroy_relation` as invoked from inside
`internal_destroy_entity` on the entity's remaining (downward, valid)
relations. -/
def sever_relation (s : MeshState) (eFrom eTo ordinal : Nat) : MeshState :=
  if (bucket_destroy_relation s eFrom eTo ordinal).1 then
    (bucket_destroy_relation
      (bucket_destroy_relation s eFrom eTo ordinal).2 eTo eFrom ordinal).2
  else (bucket_destroy_relation s eFrom eTo ordinal).2

/-- The per-rank severing loop of `internal_destroy_entity`: the entries of
`entity`'s list at rank `irank` are read once and destroyed from the last to
the first. -/
def destroy_rank_relations (s : MeshState) (entity irank : Nat) : MeshState :=
  ((s.conn (entity, irank)).reverse).foldl
    (fun acc x => sever_relation acc entity x.1 x.2) s

/-- The full severing loop of `internal_destroy_entity`: ranks from the
highest down. -/
def destroy_all_relations (s : MeshState) (entity : Nat) : MeshState :=
  ((List.range s.rankCount).reverse).foldl
    (fun acc irank => destroy_rank_relations acc entity irank) s

/-- Modelled from the spec: `impl::has_upward_connectivity` (definition not
under src/) — whether the entity has any connectivity entry at a rank
strictly above its own. -/
def has_upward_connectivity (s : MeshState) (entity : Nat) : Bool :=
  (List.range s.rankCount).any
    (fun r => decide (s.rankOf entity < r) && !(s.conn (entity, r)).isEmpty)

/-- `BulkData::internal_destroy_entity` (comm-list, ghost-reuse and bucket
bookkeeping elided): returns false for an invalid entity or one with upward
connectivity remaining; otherwise severs all remaining relations (highest
rank first, so back-relations go first) and removes the entity from the
valid set. -/
def internal_destroy_entity (s : MeshState) (entity : Nat) :
    Except String (Bool × MeshState) :=
  if !s.modifiable then .error "NOT in the ok-to-modify state"
  else if entity ∉ s.valid then .ok (false, s)
  else if has_upward_connectivity s entity then .ok (false, s)
  else
    .ok (true, { destroy_all_relations s entity with
      valid := (destroy_all_relations s entity).valid.filter
        (fun x => x ≠ entity) })

theorem bucket_destroy_relation_rankOf (s : MeshState) (a b k : Nat) :
    (bucket_destroy_relation s a b k).2.rankOf = s.rankOf := by
  unfold bucket_destroy_relation
  split <;> rfl

theorem bucket_declare_relation_rankOf (s : MeshState) (a b k : Nat) :
    (bucket_declare_relation s a b k).2.rankOf = s.rankOf := by
  unfold bucket_declare_relation
  split <;> rfl

theorem sever_relation_rankOf (s : MeshState) (a b k : Nat) :
    (sever_relation s a b k).rankOf = s.rankOf := by
  unfold sever_relation
  split
  · rw [bucket_destroy_relation_rankOf, bucket_destroy_relation_rankOf]
  · rw [bucket_destroy_relation_rankOf]

theorem bucket_destroy_relation_mem (s : MeshState) (a b k e r : Nat)
    (x : Nat × Nat) :
    x ∈ (bucket_destroy_relation s a b k).2.conn (e, r) ↔
      x ∈ s.conn (e, r) ∧ ¬((e, r) = (a, s.rankOf b) ∧ x = (b, k)) := by
  unfold bucket_destroy_relation
  by_cases hin : (b, k) ∈ s.conn (a, s.rankOf b)
  · rw [if_pos hin]
    simp only [Function.update_apply]
    by_cases hc : (e, r) = (a, s.rankOf b)
    · rw [if_pos hc, hc]
      simp only [List.mem_filter, decide_eq_true_eq]
      tauto
    · rw [if_neg hc]
      exact ⟨fun h1 => ⟨h1, fun h => hc h.1⟩, fun h => h.1⟩
  · rw [if_neg hin]
    constructor
    · intro hx
      refine ⟨hx, ?_⟩
      rintro ⟨h1, rfl⟩
      exact hin (h1 ▸ hx)
    · exact fun h => h.1

theorem bucket_declare_relation_mem (s : MeshState) (a b k e r : Nat)
    (x : Nat × Nat) :
    x ∈ (bucket_declare_relation s a b k).2.conn (e, r) ↔
      x ∈ s.conn (e, r) ∨
        ((b, k) ∉ s.conn (a, s.rankOf b) ∧ (e, r) = (a, s.rankOf b) ∧ x = (b, k)) := by
  unfold bucket_declare_relation
  by_cases hin : (b, k) ∈ s.conn (a, s.rankOf b)
  · rw [if_pos hin]
    constructor
    · exact Or.inl
    · rintro (h | ⟨h1, -⟩)
      · exact h
      · exact absurd hin h1
  · rw [if_neg hin]
    simp only [Function.update_apply]
    by_cases hc : (e, r) = (a, s.rankOf b)
    · rw [if_pos hc, hc]
      simp only [List.mem_append, List.mem_singleton]
      tauto
    · rw [if_neg hc]
      constructor
      · exact Or.inl
      · rintro (h | ⟨-, h1, -⟩)
        · exact h
        · exact absurd h1 hc

theorem bucket_destroy_relation_fst (s : MeshState) (a b k : Nat) :
    (bucket_destroy_relation s a b k).1 =
      decide ((b, k) ∈ s.conn (a, s.rankOf b)) := by
  unfold bucket_destroy_relation
  by_cases h : (b, k) ∈ s.conn (a, s.rankOf b)
  · rw [if_pos h, decide_eq_true h]
  · rw [if_neg h, decide_eq_false h]

/-- Membership characterization of one back-and-forth severing step: an entry
survives exactly when it was there, it is not the forward entry being
removed, and it is not the reciprocal of a forward entry that was actually
present. -/
theorem sever_relation_mem (s : MeshState) (a b k e r : Nat) (x : Nat × Nat) :
    x ∈ (sever_relation s a b k).conn (e, r) ↔
      x ∈ s.conn (e, r) ∧ ¬((e, r) = (a, s.rankOf b) ∧ x = (b, k)) ∧
        ¬((b, k) ∈ s.conn (a, s.rankOf b) ∧ (e, r) = (b, s.rankOf a) ∧ x = (a, k)) := by
  unfold sever_relation
  rw [bucket_destroy_relation_fst]
  by_cases hin : (b, k) ∈ s.conn (a, s.rankOf b)
  · rw [decide_eq_true hin, if_pos rfl]
    rw [bucket_destroy_relation_mem, bucket_destroy_relation_mem,
      bucket_destroy_relation_rankOf]
    constructor
    · rintro ⟨⟨h1, h2⟩, h3⟩
      exact ⟨h1, h2, fun h => h3 ⟨h.2.1, h.2.2⟩⟩
    · rintro ⟨h1, h2, h3⟩
      exact ⟨⟨h1, h2⟩, fun h => h3 ⟨hin, h.1, h.2⟩⟩
  · rw [decide_eq_false hin, if_neg (by simp)]
    rw [bucket_destroy_relation_mem]
    constructor
    · rintro ⟨h1, h2⟩
      exact ⟨h1, h2, fun h => hin h.1⟩
    · rintro ⟨h1, h2, -⟩
      exact ⟨h1, h2⟩

theorem bucket_declare_relation_fst (s : MeshState) (a b k : Nat) :
    (bucket_declare_relation s a b k).1 =
      !decide ((b, k) ∈ s.conn (a, s.rankOf b)) := by
  unfold bucket_declare_relation
  by_cases h : (b, k) ∈ s.conn (a, s.rankOf b)
  · rw [if_pos h, decide_eq_true h]
    rfl
  · rw [if_neg h, decide_eq_false h]
    rfl

theorem bucket_declare_relation_snd_of_mem (s : MeshState) (a b k : Nat)
    (h : (b, k) ∈ s.conn (a, s.rankOf b)) :
    (bucket_declare_relation s a b k).2 = s := by
  unfold bucket_declare_relation
  rw [if_pos h]

theorem sever_relation_conn_subset (s : MeshState) (a b k : Nat)
    (cell x : Nat × Nat) (hx : x ∈ (sever_relation s a b k).conn cell) :
    x ∈ s.conn cell := by
  obtain ⟨e, r⟩ := cell
  exact ((sever_relation_mem s a b k e r x).mp hx).1

theorem foldl_sever_rankOf (f : Nat) (L : List (Nat × Nat)) (acc : MeshState) :
    (L.foldl (fun a y => sever_relation a f y.1 y.2) acc).rankOf = acc.rankOf := by
  induction L generalizing acc with
  | nil => rfl
  | cons y t ih => rw [List.foldl_cons, ih, sever_relation_rankOf]

theorem foldl_sever_conn_subset (f : Nat) (L : List (Nat × Nat))
    (acc : MeshState) (cell x : Nat × Nat)
    (hx : x ∈ (L.foldl (fun a y => sever_relation a f y.1 y.2) acc).conn cell) :
    x ∈ acc.conn cell := by
  induction L generalizing acc with
  | nil => exact hx
  | cons y t ih =>
    rw [List.foldl_cons] at hx
    exact sever_relation_conn_subset _ _ _ _ _ _ (ih _ hx)

/-- The severing invariant for the back-relation `(f, k)` stored on `n`:
either the forward entry `(n, k)` is still on `f`'s list (and remains to be
processed), or the back-relation is already gone. -/
def severInv (f n k : Nat) (acc : MeshState) : Prop :=
  (n, k) ∈ acc.conn (f, acc.rankOf n) ∨ (f, k) ∉ acc.conn (n, acc.rankOf f)

theorem sever_preserves_severInv (acc : MeshState) (f n k m j : Nat)
    (hrank : acc.rankOf n < acc.rankOf f) (hI : severInv f n k acc) :
    severInv f n k (sever_relation acc f m j) := by
  unfold severInv at *
  rw [sever_relation_rankOf]
  rcases hI with hL | hR
  · by_cases hmj : (m, j) = ((n, k) : Nat × Nat)
    · right
      injection hmj with hm hj
      subst hm; subst hj
      rw [sever_relation_mem]
      rintro ⟨-, -, h3⟩
      exact h3 ⟨hL, rfl, rfl⟩
    · left
      rw [sever_relation_mem]
      refine ⟨hL, ?_, ?_⟩
      · rintro ⟨-, hx⟩
        exact hmj hx.symm
      · rintro ⟨-, hcell, -⟩
        injection hcell with h1 h2
        exact absurd h2 (Nat.ne_of_lt hrank)
  · right
    rw [sever_relation_mem]
    rintro ⟨h1, -, -⟩
    exact hR h1

theorem foldl_sever_preserves_severInv (f n k : Nat) (L : List (Nat × Nat))
    (acc : MeshState) (hrank : acc.rankOf n < acc.rankOf f)
    (hI : severInv f n k acc) :
    severInv f n k (L.foldl (fun a y => sever_relation a f y.1 y.2) acc) := by
  induction L generalizing acc with
  | nil => exact hI
  | cons y t ih =>
    rw [List.foldl_cons]
    have hrank2 : (sever_relation acc f y.1 y.2).rankOf n <
        (sever_relation acc f y.1 y.2).rankOf f := by
      rw [sever_relation_rankOf]
      exact hrank
    exact ih _ hrank2 (sever_preserves_severInv acc f n k y.1 y.2 hrank hI)

theorem foldl_sever_hit (f n k : Nat) (L : List (Nat × Nat)) (acc : MeshState)
    (hrank : acc.rankOf n < acc.rankOf f) (hmem : (n, k) ∈ L)
    (hI : severInv f n k acc) :
    (f, k) ∉
      (L.foldl (fun a y => sever_relation a f y.1 y.2) acc).conn
        (n, acc.rankOf f) := by
  induction L generalizing acc with
  | nil => cases hmem
  | cons y t ih =>
    rw [List.foldl_cons]
    by_cases hy : y = ((n, k) : Nat × Nat)
    · subst hy
      have hgone : (f, k) ∉ (sever_relation acc f n k).conn (n, acc.rankOf f) := by
        rcases hI with hL | hR
        · rw [sever_relation_mem]
          rintro ⟨-, -, h3⟩
          exact h3 ⟨hL, rfl, rfl⟩
        · rw [sever_relation_mem]
          rintro ⟨h1, -, -⟩
          exact hR h1
      intro hx
      exact hgone (foldl_sever_conn_subset f t _ _ _ hx)
    · rcases List.mem_cons.mp hmem with h | h
      · exact absurd h.symm hy
      · have hrank2 : (sever_relation acc f y.1 y.2).rankOf n <
            (sever_relation acc f y.1 y.2).rankOf f := by
          rw [sever_relation_rankOf]
          exact hrank
        have hres := ih (sever_relation acc f y.1 y.2) hrank2 h
          (sever_preserves_severInv acc f n k y.1 y.2 hrank hI)
        rw [sever_relation_rankOf] at hres
        exact hres

theorem destroy_rank_relations_rankOf (s : MeshState) (entity irank : Nat) :
    (destroy_rank_relations s entity irank).rankOf = s.rankOf := by
  unfold destroy_rank_relations
  exact foldl_sever_rankOf entity _ s

theorem destroy_rank_relations_conn_subset (s : MeshState) (entity irank : Nat)
    (cell x : Nat × Nat)
    (hx : x ∈ (destroy_rank_relations s entity irank).conn cell) :
    x ∈ s.conn cell := by
  unfold destroy_rank_relations at hx
  exact foldl_sever_conn_subset entity _ s cell x hx

theorem destroy_rank_preserves_severInv (f n k : Nat) (s : MeshState)
    (irank : Nat) (hrank : s.rankOf n < s.rankOf f) (hI : severInv f n k s) :
    severInv f n k (destroy_rank_relations s f irank) := by
  unfold destroy_rank_relations
  exact foldl_sever_preserves_severInv f n k _ s hrank hI

theorem destroy_rank_hit (f n k : Nat) (s : MeshState)
    (hrank : s.rankOf n < s.rankOf f) (hI : severInv f n k s) :
    (f, k) ∉ (destroy_rank_relations s f (s.rankOf n)).conn (n, s.rankOf f) := by
  unfold destroy_rank_relations
  rcases hI with hL | hR
  · exact foldl_sever_hit f n k _ s hrank (List.mem_reverse.mpr hL) (Or.inl hL)
  · intro hx
    exact hR (foldl_sever_conn_subset f _ s _ _ hx)

theorem foldl_rank_conn_subset (f : Nat) (R : List Nat) (acc : MeshState)
    (cell x : Nat × Nat)
    (hx : x ∈ (R.foldl (fun a irank => destroy_rank_relations a f irank) acc).conn cell) :
    x ∈ acc.conn cell := by
  induction R generalizing acc with
  | nil => exact hx
  | cons r R2 ih =>
    rw [List.foldl_cons] at hx
    exact destroy_rank_relations_conn_subset _ _ _ _ _ (ih _ hx)

theorem foldl_rank_rankOf (f : Nat) (R : List Nat) (acc : MeshState) :
    (R.foldl (fun a irank => destroy_rank_relations a f irank) acc).rankOf =
      acc.rankOf := by
  induction R generalizing acc with
  | nil => rfl
  | cons r R2 ih => rw [List.foldl_cons, ih, destroy_rank_relations_rankOf]

theorem outer_fold_gone (f n k : Nat) (R : List Nat) (acc : MeshState)
    (hrank : acc.rankOf n < acc.rankOf f) (hI : severInv f n k acc)
    (hrn : acc.rankOf n ∈ R) :
    (f, k) ∉
      (R.foldl (fun a irank => destroy_rank_relations a f irank) acc).conn
        (n, acc.rankOf f) := by
  induction R generalizing acc with
  | nil => cases hrn
  | cons r R2 ih =>
    rw [List.foldl_cons]
    by_cases hr : r = acc.rankOf n
    · subst hr
      intro hx
      exact destroy_rank_hit f n k acc hrank hI
        (foldl_rank_conn_subset f R2 _ _ _ hx)
    · rcases List.mem_cons.mp hrn with h | h
      · exact absurd h.symm hr
      · have hrank2 : (destroy_rank_relations acc f r).rankOf n <
            (destroy_rank_relations acc f r).rankOf f := by
          rw [destroy_rank_relations_rankOf]
          exact hrank
        have hres := ih (destroy_rank_relations acc f r) hrank2
          (destroy_rank_preserves_severInv f n k acc r hrank hI)
          (by rw [destroy_rank_relations_rankOf]; exact h)
        rw [destroy_rank_relations_rankOf] at hres
        exact hres

/-- C3: a valid entity with upward connectivity cannot be destroyed —
`destroy_entity` returns false, without an error and without touching the
state; destroying a higher-rank entity severs the back-relations it held on
its lower-rank targets; and a valid entity whose upward connectivity is gone
is destroyed successfully (returns true). -/
theorem destroy_entity_upward_blocked :
    (∀ (s : MeshState) (e : Nat), s.modifiable = true → e ∈ s.valid →
      has_upward_connectivity s e = true →
      internal_destroy_entity s e = .ok (false, s)) ∧
    (∀ (s : MeshState) (f n k : Nat) (s2 : MeshState),
      s.rankOf n < s.rankOf f → s.rankOf n < s.rankCount →
      (n, k) ∈ s.conn (f, s.rankOf n) →
      internal_destroy_entity s f = .ok (true, s2) →
      (f, k) ∉ s2.conn (n, s.rankOf f)) ∧
    (∀ (s : MeshState) (e : Nat), s.modifiable = true → e ∈ s.valid →
      has_upward_connectivity s e = false →
      ∃ s2, internal_destroy_entity s e = .ok (true, s2)) := by
  refine ⟨?_, ?_, ?_⟩
  · intro s e hmod hv hup
    unfold internal_destroy_entity
    rw [hmod]
    rw [if_neg (by simp), if_neg (not_not_intro hv), if_pos hup]
  · intro s f n k s2 hrank hrc hmem heq
    unfold internal_destroy_entity at heq
    split at heq
    · exact Except.noConfusion heq
    · split at heq
      · simp at heq
      · split at heq
        · simp at heq
        · simp only [Except.ok.injEq, Prod.mk.injEq, true_and] at heq
          subst heq
          show (f, k) ∉ (destroy_all_relations s f).conn (n, s.rankOf f)
          unfold destroy_all_relations
          exact outer_fold_gone f n k _ s hrank (Or.inl hmem)
            (List.mem_reverse.mpr (List.mem_range.mpr hrc))
  · intro s e hmod hv hup
    unfold internal_destroy_entity
    rw [hmod]
    rw [if_neg (by simp), if_neg (not_not_intro hv), if_neg (by simp [hup])]
    exact ⟨_, rfl⟩

/-- The concrete scenario mesh: element E = 1 (rank 3) connected to face
F = 2 (rank 2) with ordinal 0; F connected to node N = 3 (rank 0) with
ordinal 0; back-relations stored symmetrically. -/
def c3Mesh : MeshState :=
  { rankCount := 4
    rankOf := fun e => if e = 1 then 3 else if e = 2 then 2 else 0
    valid := [1, 2, 3]
    conn := fun c =>
      if c = (1, 2) then [(2, 0)]
      else if c = (2, 3) then [(1, 0)]
      else if c = (2, 0) then [(3, 0)]
      else if c = (3, 2) then [(2, 0)]
      else []
    modifiable := true }

/-- The state after successfully destroying element E = 1. -/
def c3AfterDestroyE : MeshState :=
  match internal_destroy_entity c3Mesh 1 with
  | .ok x => x.2
  | .error _ => c3Mesh

/-- Witness for `destroy_entity_upward_blocked`: destroying node N = 3 is
blocked while face F = 2 holds a relation to it; destroying element E = 1
succeeds and severs F's back-relation to E. -/
theorem destroy_entity_upward_blocked_witness :
    internal_destroy_entity c3Mesh 3 = .ok (false, c3Mesh) ∧
    (1, 0) ∉ c3AfterDestroyE.conn (2, c3Mesh.rankOf 1) ∧
    (∃ s2, internal_destroy_entity c3Mesh 1 = .ok (true, s2)) :=
  ⟨destroy_entity_upward_blocked.1 c3Mesh 3 rfl (by decide) (by decide),
   destroy_entity_upward_blocked.2.1 c3Mesh 1 2 0 c3AfterDestroyE
     (by decide) (by decide) (by decide) rfl,
   destroy_entity_upward_blocked.2.2 c3Mesh 1 rfl (by decide) (by decide)⟩

/-- C4: a successful `declare_relation(A, B, k)` leaves B in A's list at B's
rank under ordinal k and A in B's reciprocal list under the same ordinal
(given the symmetry invariant for the pre-existing-relation no-op case);
after `destroy_relation(A, B, k)` returns true, neither list contains the
other under ordinal k. -/
theorem relation_declare_destroy_symmetry :
    (∀ (s : MeshState) (A B k : Nat) (s2 : MeshState),
      internal_declare_relation s A B k = .ok s2 →
      ((B, k) ∈ s.conn (A, s.rankOf B) → (A, k) ∈ s.conn (B, s.rankOf A)) →
      (B, k) ∈ s2.conn (A, s.rankOf B) ∧ (A, k) ∈ s2.conn (B, s.rankOf A)) ∧
    (∀ (s : MeshState) (A B k : Nat) (s2 : MeshState),
      internal_destroy_relation s A B k = .ok (true, s2) →
      (B, k) ∉ s2.conn (A, s.rankOf B) ∧ (A, k) ∉ s2.conn (B, s.rankOf A)) := by
  constructor
  · intro s A B k s2 heq hsym
    unfold internal_declare_relation at heq
    split at heq
    · exact Except.noConfusion heq
    · split at heq
      · exact Except.noConfusion heq
      · split at heq
        case isTrue hnew =>
          simp only [Except.ok.injEq] at heq
          subst heq
          rw [bucket_declare_relation_fst, Bool.not_eq_true',
            decide_eq_false_iff_not] at hnew
          constructor
          · rw [bucket_declare_relation_mem]
            left
            rw [bucket_declare_relation_mem]
            right
            exact ⟨hnew, rfl, rfl⟩
          · rw [bucket_declare_relation_mem, bucket_declare_relation_rankOf]
            by_cases hmem2 : (A, k) ∈
                (bucket_declare_relation s A B k).2.conn (B, s.rankOf A)
            · exact Or.inl hmem2
            · exact Or.inr ⟨hmem2, rfl, rfl⟩
        case isFalse hold =>
          simp only [Except.ok.injEq] at heq
          subst heq
          have hold2 : (B, k) ∈ s.conn (A, s.rankOf B) := by
            by_contra hm
            exact hold (by rw [bucket_declare_relation_fst, decide_eq_false hm]; rfl)
          rw [bucket_declare_relation_snd_of_mem s A B k hold2]
          exact ⟨hold2, hsym hold2⟩
  · intro s A B k s2 heq
    unfold internal_destroy_relation at heq
    split at heq
    · exact Except.noConfusion heq
    · split at heq
      · exact Except.noConfusion heq
      · split at heq
        case isTrue hfwd =>
          simp only [Except.ok.injEq, Prod.mk.injEq, true_and] at heq
          subst heq
          rw [bucket_destroy_relation_fst, decide_eq_true_eq] at hfwd
          constructor
          · rw [bucket_destroy_relation_mem]
            rintro ⟨h1, -⟩
            rw [bucket_destroy_relation_mem] at h1
            exact h1.2 ⟨rfl, rfl⟩
          · rw [bucket_destroy_relation_mem, bucket_destroy_relation_rankOf]
            rintro ⟨-, h2⟩
            exact h2 ⟨rfl, rfl⟩
        case isFalse hold =>
          simp at heq

/-- Two-entity mesh for the C4 witness: A = 1 (rank 1), B = 2 (rank 0), no
relations yet. -/
def c4Mesh : MeshState :=
  { rankCount := 2
    rankOf := fun e => if e = 1 then 1 else 0
    valid := [1, 2]
    conn := fun _ => []
    modifiable := true }

/-- The state after `declare_relation(1, 2, 0)` on `c4Mesh`. -/
def c4AfterDeclare : MeshState :=
  match internal_declare_relation c4Mesh 1 2 0 with
  | .ok m => m
  | .error _ => c4Mesh

/-- The state after `destroy_relation(1, 2, 0)` on `c4AfterDeclare`. -/
def c4AfterDestroy : MeshState :=
  match internal_destroy_relation c4AfterDeclare 1 2 0 with
  | .ok x => x.2
  | .error _ => c4AfterDeclare

/-- Witness for `relation_declare_destroy_symmetry` on a concrete mesh. -/
theorem relation_declare_destroy_symmetry_witness :
    ((2, 0) ∈ c4AfterDeclare.conn (1, c4Mesh.rankOf 2) ∧
      (1, 0) ∈ c4AfterDeclare.conn (2, c4Mesh.rankOf 1)) ∧
    ((2, 0) ∉ c4AfterDestroy.conn (1, c4AfterDeclare.rankOf 2) ∧
      (1, 0) ∉ c4AfterDestroy.conn (2, c4AfterDeclare.rankOf 1)) :=
  ⟨relation_declare_destroy_symmetry.1 c4Mesh 1 2 0 c4AfterDeclare rfl
      (by decide),
   relation_declare_destroy_symmetry.2 c4AfterDeclare 1 2 0 c4AfterDestroy rfl⟩

/-! ### Aura regeneration (`BulkData::internal_regenerate_aura` and the
`EntityProcMapping` overload of `BulkData::internal_change_ghosting`) -/

/-- One aura-ghost channel entry: `(entity, destination process)`. -/
abbrev EntityProcV := Nat × Nat

/-- The owner-side loop of `internal_change_ghosting` over the current aura
comm-map entries, followed by `ghost_entities_and_fields` on the remaining
mapping: current aura entries absent from the desired mapping are erased
(`entity_comm_map_erase`); entries found in the mapping are dropped from it
(already ghosted, not re-sent); the remaining desired entries are then sent
and inserted into the comm map.  The resulting aura comm map is therefore
the kept current entries plus the newly sent desired ones. -/
def change_aura_ghosting (current desired : List EntityProcV) :
    List EntityProcV :=
  current.filter (fun x => decide (x ∈ desired)) ++
    desired.filter (fun x => decide (x ∉ current))

/-- The mesh state aura regeneration reads and writes: the sharing comm-map
data and the owned-entity connectivity data (both read-only here — changing
the aura ghosting touches neither), and the aura comm-map entries, which are
replaced wholesale. -/
structure AuraMesh where
  sharingData : List EntityProcV
  connData : List (Nat × Nat × Nat)
  aura : List EntityProcV

/-- `BulkData::internal_regenerate_aura`, parameterized by the send-set
computation (the body of `fill_list_of_entities_to_send_for_aura_ghosting`,
whose helper `impl::insert_upward_relations` is not under src/): the send set
is computed from the sharing information and the owned-entity connectivity
only, and the old aura is replaced wholesale via
`internal_change_ghosting`. -/
def internal_regenerate_aura
    (computeSend : List EntityProcV → List (Nat × Nat × Nat) → List EntityProcV)
    (m : AuraMesh) : AuraMesh :=
  { m with aura := (change_aura_ghosting m.aura
      (computeSend m.sharingData m.connData)) }

theorem mem_change_aura_ghosting (current desired : List EntityProcV)
    (x : EntityProcV) :
    x ∈ change_aura_ghosting current desired ↔ x ∈ desired := by
  unfold change_aura_ghosting
  simp only [List.mem_append, List.mem_filter, decide_eq_true_eq]
  constructor
  · rintro (⟨-, h⟩ | ⟨h, -⟩) <;> exact h
  · intro h
    by_cases hc : x ∈ current
    · exact Or.inl ⟨hc, h⟩
    · exact Or.inr ⟨h, hc⟩

/-- C5: aura regeneration is idempotent — it leaves the sharing and
connectivity data untouched, and a second `internal_regenerate_aura` with no
intervening local mutation produces exactly the same aura
entity/destination-process set, whatever send-set computation is plugged
in. -/
theorem regenerate_aura_idempotent
    (computeSend : List EntityProcV → List (Nat × Nat × Nat) → List EntityProcV)
    (m : AuraMesh) :
    (internal_regenerate_aura computeSend m).sharingData = m.sharingData ∧
    (internal_regenerate_aura computeSend m).connData = m.connData ∧
    ∀ x, x ∈ (internal_regenerate_aura computeSend
        (internal_regenerate_aura computeSend m)).aura ↔
      x ∈ (internal_regenerate_aura computeSend m).aura := by
  refine ⟨rfl, rfl, ?_⟩
  intro x
  show x ∈ change_aura_ghosting
      (change_aura_ghosting m.aura (computeSend m.sharingData m.connData))
      (computeSend m.sharingData m.connData) ↔
    x ∈ change_aura_ghosting m.aura (computeSend m.sharingData m.connData)
  rw [mem_change_aura_ghosting, mem_change_aura_ghosting]

/-! ### `BulkData::declare_element_side_with_id` -/

/-- The side-declaration slice of mesh state: the `(element, side ordinal) →
side entity` connectivity consulted by `get_side_entity_for_elem_side_pair`,
the side-rank entity repository (side id → part-ordinal list), the locally
owned side entities, and whether a face-adjacent-element graph is active. -/
structure SideMesh where
  elemSideToSide : List ((Nat × Nat) × Nat)
  sideParts : List (Nat × List Nat)
  owned : List Nat
  hasGraph : Bool
deriving Repr, DecidableEq

/-- `stk::mesh::get_side_entity_for_elem_side_pair`: the side entity already
connected to `elem` at ordinal `sideOrd`, if any. -/
def get_side_entity_for_elem_side_pair (m : SideMesh) (elem sideOrd : Nat) :
    Option Nat :=
  (m.elemSideToSide.find? (fun e => decide (e.1 = (elem, sideOrd)))).map (·.2)

/-- Part ordinal of the topology root part added by
`add_root_topology_part`. -/
def root_topo_part_ord : Nat := 2

/-- Side-repository lookup. -/
def lookupSideParts (m : SideMesh) (side : Nat) : Option (List Nat) :=
  (m.sideParts.find? (fun e => decide (e.1 = side))).map (·.2)

/-- `change_entity_parts(side, parts, {})` on the existing side. -/
def updateSideParts (m : SideMesh) (side : Nat) (parts : List Nat) : SideMesh :=
  { m with sideParts := (m.sideParts.map (fun e =>
      if e.1 = side then (side, addPartsList e.2 parts) else e)) }

/-- `BulkData::create_and_connect_side`: declare the new side entity with the
requested parts plus the topology root part, owned locally, and connect it to
the element at the ordinal (node/edge hookup and attachment to further
node-sharing elements elided). -/
def createAndConnectSide (m : SideMesh) (globalSideId elem sideOrd : Nat)
    (parts : List Nat) : SideMesh :=
  { elemSideToSide := m.elemSideToSide ++ [((elem, sideOrd), globalSideId)]
    sideParts := m.sideParts ++
      [(globalSideId, addPartsList [root_topo_part_ord] parts)]
    owned := m.owned ++ [globalSideId]
    hasGraph := m.hasGraph }

/-- `BulkData::declare_element_side_with_id`: when a side already exists for
the element/ordinal pair, only that side's part membership is updated (and
only when the side is locally owned) and the existing side is returned;
otherwise the graph id-conflict check runs and a new side is created and
connected. -/
def declare_element_side_with_id (m : SideMesh)
    (globalSideId elem sideOrd : Nat) (parts : List Nat) :
    Except String (Nat × SideMesh) :=
  match get_side_entity_for_elem_side_pair m elem sideOrd with
  | some side =>
    if side ∈ m.owned then .ok (side, updateSideParts m side parts)
    else .ok (side, m)
  | none =>
    if m.hasGraph ∧ (lookupSideParts m globalSideId).isSome then
      .error "Conflicting id in declare_elem_side"
    else .ok (globalSideId, createAndConnectSide m globalSideId elem sideOrd parts)

theorem updateSideParts_keys (m : SideMesh) (side : Nat) (parts : List Nat) :
    (updateSideParts m side parts).sideParts.map (·.1) =
      m.sideParts.map (·.1) := by
  unfold updateSideParts
  rw [List.map_map]
  refine List.map_congr_left ?_
  intro e _
  by_cases h : e.1 = side
  · simp [h]
  · simp [h]

theorem lookupSideParts_updateSideParts_ne (m : SideMesh) (side : Nat)
    (parts : List Nat) (e : Nat) (hne : e ≠ side) :
    lookupSideParts (updateSideParts m side parts) e = lookupSideParts m e := by
  unfold lookupSideParts updateSideParts
  induction m.sideParts with
  | nil => rfl
  | cons x t ih =>
    simp only [List.map_cons, List.find?_cons]
    by_cases hx : x.1 = side
    · have h1 : (decide ((if x.1 = side then (side, addPartsList x.2 parts)
          else x).1 = e)) = false := by
        rw [if_pos hx]
        exact decide_eq_false (fun h => hne h.symm)
      have h2 : (decide (x.1 = e)) = false := by
        refine decide_eq_false ?_
        rw [hx]
        exact fun h => hne h.symm
      rw [h1, h2]
      exact ih
    · rw [if_neg hx]
      by_cases he : x.1 = e
      · rw [decide_eq_true he]
      · rw [decide_eq_false he]
        exact ih

/-- C8: when a side entity already exists for the element/ordinal pair,
`declare_element_side_with_id` returns that side and changes nothing about
the mesh except (possibly) the existing side's part list: the element-side
connectivity, ownership, graph flag, the set of side entities, and every
other side's parts are untouched. -/
theorem declare_element_side_existing_frame (m : SideMesh)
    (globalSideId elem sideOrd : Nat) (parts : List Nat) (side : Nat)
    (hex : get_side_entity_for_elem_side_pair m elem sideOrd = some side) :
    ∃ m2, declare_element_side_with_id m globalSideId elem sideOrd parts =
        .ok (side, m2) ∧
      m2.elemSideToSide = m.elemSideToSide ∧
      m2.owned = m.owned ∧
      m2.hasGraph = m.hasGraph ∧
      m2.sideParts.map (·.1) = m.sideParts.map (·.1) ∧
      ∀ e, e ≠ side → lookupSideParts m2 e = lookupSideParts m e := by
  simp only [declare_element_side_with_id, hex]
  by_cases howned : side ∈ m.owned
  · rw [if_pos howned]
    refine ⟨updateSideParts m side parts, rfl, rfl, rfl, rfl, ?_, ?_⟩
    · exact updateSideParts_keys m side parts
    · exact fun e hne => lookupSideParts_updateSideParts_ne m side parts e hne
  · rw [if_neg howned]
    exact ⟨m, rfl, rfl, rfl, rfl, rfl, fun _ _ => rfl⟩

/-- Witness for `declare_element_side_existing_frame`: element 5 / ordinal 1
already has side 9. -/
theorem declare_element_side_existing_frame_witness :
    ∃ m2, declare_element_side_with_id
        (SideMesh.mk [((5, 1), 9)] [(9, []), (7, [3])] [9] false) 42 5 1 [4] =
        .ok (9, m2) ∧
      m2.elemSideToSide = [((5, 1), 9)] ∧
      m2.owned = [9] ∧
      m2.hasGraph = false ∧
      m2.sideParts.map (·.1) =
        ((SideMesh.mk [((5, 1), 9)] [(9, []), (7, [3])] [9] false)).sideParts.map (·.1) ∧
      ∀ e, e ≠ 9 → lookupSideParts m2 e =
        lookupSideParts (SideMesh.mk [((5, 1), 9)] [(9, []), (7, [3])] [9] false) e :=
  declare_element_side_existing_frame
    (SideMesh.mk [((5, 1), 9)] [(9, []), (7, [3])] [9] false) 42 5 1 [4] 9 rfl

end MeshVerify
